import Mathlib

/-!
# Gantt playback and rendering of `src/app.js`

A shallow embedding of the playback controller (`playTimeline`, `pauseTimeline`,
`resetTimeline`), the row highlight sink (`highlightProcess`), the renderer
(`renderResults`, `drawGantt`) and the colour hash (`hashCode`).

Conventions of the embedding.

* JS numbers that hold times and pixel positions are rationals; the numbers of
  `hashCode` are integers, and an arithmetic result is only given where a double
  holds it exactly (`exactNum`).
* An `async` invocation of `playTimeline` is a coroutine: it runs until its next
  `await sleep(..)`, where it is recorded in `State.loops` with its program
  point (`Pc`) and its local variables.  A timer wake-up (`wake`) resumes one
  suspended invocation and runs it to its next `await` or to its end.  The
  order of wake-ups is left free: every order that real timers can produce is
  among the orders of the model.
* Each call `highlightProcess(pid, state)` made by the playback loop is logged as
  an `Event` in `State.trace`, tagged with the invocation and the loop index
  that made it.
* Texts written by `renderResults` other than the status line (averages, the
  per-row metrics, the result list) are not part of the state.
-/

namespace Scheduler

/-! ## Numbers -/

/-- ToInt32 of an integral JS number: reduce modulo 2^32 into [-2^31, 2^31). -/
def toInt32 (v : Int) : Int := (v + 2 ^ 31) % 2 ^ 32 - 2 ^ 31

/-- An integral JS number is held exactly by a double inside [-2^53, 2^53];
outside of it the embedding gives no value. -/
def exactNum (v : Int) : Option Int :=
  if -(2 ^ 53) ≤ v ∧ v ≤ 2 ^ 53 then some v else none

/-- The operator `a << n`: ToInt32 of the left operand, shift count modulo 32,
result read as a signed 32-bit integer. -/
def shiftLeft (a : Int) (n : Nat) : Int := toInt32 (toInt32 a * 2 ^ (n % 32))

/-- One iteration of the loop of `hashCode` (lines 211-212):
`h = ((h << 5) - h) + str.charCodeAt(i); h |= 0`. -/
def hashStep (h : Int) (c : Nat) : Option Int :=
  (exactNum (shiftLeft h 5 - h)).bind fun d =>
  (exactNum (d + (c : Int))).bind fun e =>
  some (toInt32 e)

/-- The loop of `hashCode` over the remaining code units. -/
def hashLoop : List Nat → Int → Option Int
  | [], h => some h
  | c :: cs, h => (hashStep h c).bind (hashLoop cs)

/-- `hashCode(str)` (lines 208-215), on the UTF-16 code units of `str`. -/
def hashCode (str : List Nat) : Option Int := hashLoop str 0

/-- Reduction of an integer modulo 2^32 into the signed range, as the
specification words it. -/
def wrap32 (v : Int) : Int := (v + 2147483648) % 4294967296 - 2147483648

/-- The hash as the specification words it: `hash = hash*31 + charCode` with
wraparound to the 32-bit signed range, folded from 0. -/
def hashSpec (str : List Nat) : Int :=
  str.foldl (fun h c => wrap32 (h * 31 + (c : Int))) 0

/-- UTF-16 code units of one character. -/
def charUnits (c : Char) : List Nat :=
  if c.toNat < 65536 then [c.toNat]
  else [55296 + (c.toNat - 65536) / 1024, 56320 + (c.toNat - 65536) % 1024]

/-- UTF-16 code units of a string, what `charCodeAt` reads. -/
def codeUnits (s : String) : List Nat := s.toList.flatMap charUnits

/-! ## Timeline data -/

/-- One element of `data.timeline`: `{pid, start, end}`. -/
structure Segment where
  pid : String
  start : ℚ
  end_ : ℚ
deriving DecidableEq

/-- The part of the backend payload that the controller and renderer read. -/
structure Payload where
  timeline : Option (List Segment)

/-- `Math.min(...xs)` for a non-empty argument list (`drawGantt` calls it only
after its emptiness guard). -/
def mathMin : List ℚ → ℚ
  | [] => 0
  | x :: xs => xs.foldl min x

/-- `Math.max(...xs)` for a non-empty argument list. -/
def mathMax : List ℚ → ℚ
  | [] => 0
  | x :: xs => xs.foldl max x

/-! ## Process table rows -/

/-- A table row: the value of its `.pid` input and its class list. -/
structure Row where
  pid : String
  classList : List String
deriving DecidableEq

/-- `classList.add(c)`. -/
def classAdd (l : List String) (c : String) : List String :=
  if c ∈ l then l else l ++ [c]

/-- `classList.remove(c)`. -/
def classRemove (l : List String) (c : String) : List String :=
  l.filter (fun d => d ≠ c)

/-- Body of the loop of `highlightProcess` for one row (lines 261-269). -/
def highlightRow (pid state : String) (tr : Row) : Row :=
  if tr.pid = pid then
    let cleared := classRemove tr.classList "row-done"
    if state = "running" then
      { tr with classList := classAdd cleared "row-running" }
    else if state = "done" then
      { tr with classList := classAdd (classRemove cleared "row-running") "row-done" }
    else
      { tr with classList := cleared }
  else tr

/-- `highlightProcess(pid, state)` (lines 259-271) on the rows of the table. -/
def highlightProcess (rows : List Row) (pid state : String) : List Row :=
  rows.map (highlightRow pid state)

/-- Body of the loop of `resetTimeline` for one row (line 254). -/
def clearRow (tr : Row) : Row :=
  { tr with classList := classRemove (classRemove tr.classList "row-running") "row-done" }

/-! ## Drawing surface -/

/-- A drawing primitive that `drawGantt` issues inside its segment loop. -/
inductive DrawOp where
  | fillRect (x y w h : ℚ) (fillStyle : String)
  | fillText (label : Segment) (x y : ℚ) (fillStyle : String)
deriving DecidableEq

/-- The canvas: its size and what has been drawn since it was last cleared. -/
structure Canvas where
  width : ℚ
  height : ℚ
  drawn : List DrawOp
deriving DecidableEq

/-- `getColor(pid)` of `drawGantt` (lines 190-196) with its memo table `colors`.
A pid that names a property of `Object.prototype` is outside the embedding. -/
def getColor (colors : List (String × String)) (pid : String) :
    Option (List (String × String) × String) :=
  match colors.lookup pid with
  | some c => some (colors, c)
  | none =>
    (hashCode (codeUnits pid)).map fun v =>
      let c := "hsl(" ++ toString (v.natAbs % 360) ++ ", 70%, 60%)"
      ((pid, c) :: colors, c)

/-- The segment loop of `drawGantt` (lines 198-205). -/
def drawSegments (start total w : ℚ) :
    List Segment → List (String × String) → List DrawOp → Option (List DrawOp)
  | [], _, acc => some acc
  | seg :: rest, colors, acc =>
    (getColor colors seg.pid).bind fun cc =>
      let x := ((seg.start - start) / total) * w
      let w2 := ((seg.end_ - seg.start) / total) * w
      drawSegments start total w rest cc.1
        (acc ++ [DrawOp.fillRect x 30 w2 50 cc.2, DrawOp.fillText seg (x + 4) 60 "#000"])

/-- Line 180: `start = Math.min(...timeline.map(s => s.start))`. -/
def ganttStart (tl : List Segment) : ℚ := mathMin (tl.map fun s => s.start)

/-- Line 181: `end = Math.max(...timeline.map(s => s.end))`. -/
def ganttEnd (tl : List Segment) : ℚ := mathMax (tl.map fun s => s.end_)

/-- Line 182: `total = Math.max(1, end - start)`. -/
def ganttTotal (tl : List Segment) : ℚ := max 1 (ganttEnd tl - ganttStart tl)

/-- Line 183: `w = Math.max(700, total * 30)`. -/
def ganttWidth (tl : List Segment) : ℚ := max 700 (ganttTotal tl * 30)

/-- Line 177: `ctx.clearRect(0, 0, canvas.width, canvas.height)`. -/
def clearCanvas (cv : Canvas) : Canvas := { cv with drawn := [] }

/-- `drawGantt(timeline)` (lines 175-206). -/
def drawGantt (timeline : Option (List Segment)) (cv : Canvas) : Option Canvas :=
  match timeline with
  | none => some (clearCanvas cv)
  | some [] => some (clearCanvas cv)
  | some (s0 :: ss) =>
    let tl := s0 :: ss
    (drawSegments (ganttStart tl) (ganttTotal tl) (ganttWidth tl) tl [] []).map fun ops =>
      { width := ganttWidth tl, height := 120, drawn := ops }

/-! ## Playback state -/

/-- A call `highlightProcess(pid, state)` made by the playback loop: which
invocation of `playTimeline` made it, at which loop index `i`. -/
structure Event where
  loop : Nat
  index : Nat
  pid : String
  state : String
deriving DecidableEq

/-- Where a suspended invocation of `playTimeline` is waiting. -/
inductive Pc where
  /-- In `while (_paused) await sleep(100)` (line 229) of iteration `i`. -/
  | poll (i : Nat)
  /-- In `await sleep(dur)` (line 234) of iteration `i`, with its `seg`. -/
  | wait (i : Nat) (seg : Segment) (dur : ℚ)
deriving DecidableEq

/-- A suspended invocation of `playTimeline`. -/
structure Loop where
  id : Nat
  pc : Pc
deriving DecidableEq

/-- The module state of `app.js` that playback and rendering touch. -/
structure State where
  /-- The global `window._timeline`; `none` is `undefined`. -/
  timeline : Option (List Segment)
  speedMultiplier : ℚ
  playing : Bool
  paused : Bool
  currentIndex : Nat
  rows : List Row
  status : String
  canvas : Canvas
  alerts : List String
  /-- Suspended invocations of `playTimeline`. -/
  loops : List Loop
  nextId : Nat
  trace : List Event

/-- The state after the module has loaded (lines 26-29), for a given table. -/
def initState (rows : List Row) : State :=
  { timeline := none, speedMultiplier := 1, playing := false, paused := false,
    currentIndex := 0, rows := rows, status := "", canvas := ⟨300, 150, []⟩,
    alerts := [], loops := [], nextId := 0, trace := [] }

/-- Length of `window._timeline`, 0 when it is `undefined`. -/
def timelineLength (s : State) : Nat :=
  match s.timeline with
  | none => 0
  | some tl => tl.length

/-! ## Playback controller -/

/-- The delay of line 233: `Math.max(100, (seg.end - seg.start) * 200 / _speedMultiplier)`
(for a positive multiplier). -/
def sleepDuration (seg : Segment) (speed : ℚ) : ℚ :=
  max 100 ((seg.end_ - seg.start) * 200 / speed)

/-- A call of `highlightProcess` from the playback loop, logged. -/
def emit (s : State) (id i : Nat) (pid state : String) : State :=
  { s with rows := highlightProcess s.rows pid state,
           trace := s.trace ++ [⟨id, i, pid, state⟩] }

/-- The invocation reaches an `await`: it is parked until its timer fires. -/
def suspend (s : State) (id : Nat) (pc : Pc) : State :=
  { s with loops := s.loops ++ [⟨id, pc⟩] }

/-- Lines 238-240, after the `for` loop. -/
def loopExit (s : State) : State :=
  { s with playing := false, currentIndex := 0, status := "Status: finished" }

/-- Lines 230-234: the iteration after its pause wait, up to `await sleep(dur)`.
Reading `seg.pid` of an absent segment throws; the invocation then ends there. -/
def loopBody (id i : Nat) (s : State) : State :=
  let s1 := { s with currentIndex := i }
  match s1.timeline with
  | none => s1
  | some tl =>
    match tl.get? i with
    | none => s1
    | some seg =>
      suspend (emit s1 id i seg.pid "running") id
        (Pc.wait i seg (sleepDuration seg s1.speedMultiplier))

/-- Lines 227-229: loop test `i < window._timeline.length`, `if (!_playing) break`,
and the first test of `while (_paused)`. -/
def loopHead (id i : Nat) (s : State) : State :=
  match s.timeline with
  | none => s
  | some tl =>
    if i < tl.length then
      if !s.playing then loopExit s
      else if s.paused then suspend s id (Pc.poll i)
      else loopBody id i s
    else loopExit s

/-- Continuation of a suspended invocation when its timer fires. -/
def resume (l : Loop) (s : State) : State :=
  match l.pc with
  | Pc.poll i => if s.paused then suspend s l.id (Pc.poll i) else loopBody l.id i s
  | Pc.wait i seg _ => loopHead l.id (i + 1) (emit s l.id i seg.pid "done")

/-- The timer of invocation `id` fires. -/
def wake (id : Nat) (s : State) : State :=
  match s.loops.find? (fun l => l.id = id) with
  | none => s
  | some l => resume l { s with loops := s.loops.filter (fun k => k.id ≠ id) }

/-- `playTimeline()` (lines 217-241) up to its first `await` or its end. -/
def playTimeline (s : State) : State :=
  if timelineLength s = 0 then
    { s with alerts := s.alerts ++ ["Run Start first"] }
  else if s.playing && !s.paused then s
  else
    loopHead s.nextId s.currentIndex
      { s with playing := true, paused := false, status := "Status: playing",
               nextId := s.nextId + 1 }

/-- `pauseTimeline()` (lines 243-247). -/
def pauseTimeline (s : State) : State :=
  if !s.playing then s
  else { s with paused := true, status := "Status: paused" }

/-- `resetTimeline()` (lines 249-257). -/
def resetTimeline (s : State) : State :=
  { s with playing := false, paused := false, currentIndex := 0,
           rows := s.rows.map clearRow, status := "Status: reset" }

/-- `renderResults(data)` (lines 148-173): `drawGantt`, then the install of
`window._timeline` and the status line. -/
def renderResults (data : Payload) (s : State) : Option State :=
  (drawGantt data.timeline s.canvas).map fun cv =>
    { s with canvas := cv, timeline := data.timeline,
             status := "Status: ready - use Play to animate" }

/-! ## Sessions -/

/-- What can happen in a session. -/
inductive Step where
  | render (data : Payload)
  | play
  | pause
  | reset
  | wake (id : Nat)

/-- One step of a session. A `renderResults` outside the embedding (see
`getColor`) leaves the state as it is. -/
def step (s : State) : Step → State
  | Step.render data => (renderResults data s).getD s
  | Step.play => playTimeline s
  | Step.pause => pauseTimeline s
  | Step.reset => resetTimeline s
  | Step.wake id => wake id s

/-- A session: the steps in order. -/
def exec (s : State) (steps : List Step) : State := steps.foldl step s

/-! ## Properties of rows, drawings, sessions and traces -/

/-- No row carries both highlight classes. -/
def ExclusiveClasses (rows : List Row) : Prop :=
  ∀ tr ∈ rows, ¬ ("row-running" ∈ tr.classList ∧ "row-done" ∈ tr.classList)

/-- Left edge and width of the bars (the `fillRect` calls) among drawing
primitives, in drawing order. -/
def bars : List DrawOp → List (ℚ × ℚ)
  | [] => []
  | DrawOp.fillRect x _ w _ _ :: rest => (x, w) :: bars rest
  | DrawOp.fillText _ _ _ _ :: rest => bars rest

/-- The segments whose label (a `fillText` call) is among drawing primitives. -/
def labels : List DrawOp → List Segment
  | [] => []
  | DrawOp.fillRect _ _ _ _ _ :: rest => labels rest
  | DrawOp.fillText seg _ _ _ :: rest => seg :: labels rest

/-- Ordering of the highlight events: when `running` of loop index `i + 1` is
emitted, every `running` of loop index `i` emitted before it has been followed,
still before it, by the `done` of the same invocation for the same index. -/
def PairsBeforeNext (tr : List Event) : Prop :=
  ∀ k e, tr.get? k = some e → e.state = "running" →
    ∀ q e', q < k → tr.get? q = some e' → e'.state = "running" →
      e'.index + 1 = e.index →
      ∃ r, q < r ∧ r < k ∧ tr.get? r = some ⟨e'.loop, e'.index, e'.pid, "done"⟩

/-- Every `done` comes after the `running` of the same invocation for the same
loop index. -/
def DoneAfterRunning (tr : List Event) : Prop :=
  ∀ k e, tr.get? k = some e → e.state = "done" →
    ∃ q, q < k ∧ tr.get? q = some ⟨e.loop, e.index, e.pid, "running"⟩

/-- The trace holds, for loop index `i`, a `running` and after it the `done` of
the same invocation. -/
def HasPair (tr : List Event) (i : Nat) : Prop :=
  ∃ q r l pid, q < r ∧ tr.get? q = some ⟨l, i, pid, "running"⟩ ∧
    tr.get? r = some ⟨l, i, pid, "done"⟩

/-- Before every `running` of loop index `i + 1` the trace holds a `running` and
then the `done` of one invocation for loop index `i`. -/
def PredecessorPaired (tr : List Event) : Prop :=
  ∀ k e, tr.get? k = some e → e.state = "running" → ∀ i, e.index = i + 1 →
    ∃ q r l pid, q < r ∧ r < k ∧ tr.get? q = some ⟨l, i, pid, "running"⟩ ∧
      tr.get? r = some ⟨l, i, pid, "done"⟩

/-- What the controller keeps true of its events in every session. -/
structure OrderInv (s : State) : Prop where
  doneAfter : DoneAfterRunning s.trace
  pred : PredecessorPaired s.trace
  cursor : ∀ i, s.currentIndex = i + 1 → HasPair s.trace i
  poll : ∀ l ∈ s.loops, ∀ i, l.pc = Pc.poll (i + 1) → HasPair s.trace i
  waitPred : ∀ l ∈ s.loops, ∀ i seg d, l.pc = Pc.wait (i + 1) seg d → HasPair s.trace i
  waitRun : ∀ l ∈ s.loops, ∀ i seg d, l.pc = Pc.wait i seg d →
    ∃ q, s.trace.get? q = some ⟨l.id, i, seg.pid, "running"⟩

/-- After `resetTimeline` in state `s`, timer wake-ups alone emit no `running`. -/
def QuietAfterReset (s : State) : Prop :=
  ∀ ids : List Nat,
    ∀ e ∈ (exec (resetTimeline s) (ids.map Step.wake)).trace.drop s.trace.length,
      e.state ≠ "running"

/-! ## Concrete inputs -/

/-- The timeline of scenario A. -/
def timelineA : List Segment := [⟨"P1", 0, 5⟩, ⟨"P2", 5, 8⟩]

/-- The payload of scenario C: a single zero-length segment. -/
def payloadC : Payload := ⟨some [⟨"P1", 3, 3⟩]⟩

/-- The default table of `addDefaultRows`. -/
def defaultRows : List Row := [⟨"P1", []⟩, ⟨"P2", []⟩, ⟨"P3", []⟩]

/-- A table in which two rows share the pid "P1", the first of them marked done. -/
def duplicateRows : List Row := [⟨"P1", ["row-done"]⟩, ⟨"P2", []⟩, ⟨"P1", []⟩]

/-- The session of scenario A after the simulation result has been rendered. -/
def readyA : State := exec (initState defaultRows) [Step.render ⟨some timelineA⟩]

/-- A paused session in which a new simulation result has arrived:
play, pause, then `renderResults`. -/
def pausedAfterRender : State :=
  exec (initState defaultRows)
    [Step.render ⟨some timelineA⟩, Step.play, Step.pause, Step.render ⟨some timelineA⟩]

/-- Scenario A paused during its first segment, resumed after that segment's
wait has ended, then left to run: play, pause, timer of the first invocation,
play, poll timer of the first invocation, its segment timer, and the segment
timer of the second invocation. -/
def resumedA : State :=
  exec readyA
    [Step.play, Step.pause, Step.wake 0, Step.play, Step.wake 0, Step.wake 0, Step.wake 1]

/-- Scenario A paused during its first segment and, once that segment's wait
has ended, reset: play, pause, timer of the invocation, reset. -/
def resetWhilePausedA : State :=
  exec readyA [Step.play, Step.pause, Step.wake 0, Step.reset]

/-! ## Facts about `hashCode` -/

theorem toInt32_eq (v : Int) :
    toInt32 v = (v + 2147483648) % 4294967296 - 2147483648 := by
  unfold toInt32; norm_num

theorem wrap32_range (v : Int) : -2147483648 ≤ wrap32 v ∧ wrap32 v < 2147483648 := by
  unfold wrap32
  omega

theorem exactNum_of_bounds (v : Int)
    (h : -9007199254740992 ≤ v ∧ v ≤ 9007199254740992) : exactNum v = some v := by
  unfold exactNum
  rw [if_pos]
  norm_num
  exact h

theorem hashStep_eq (h : Int) (c : Nat) (hh : -2147483648 ≤ h ∧ h < 2147483648)
    (hc : c < 65536) : hashStep h c = some (wrap32 (h * 31 + (c : Int))) := by
  have hs : shiftLeft h 5 = (h * 32 + 2147483648) % 4294967296 - 2147483648 := by
    unfold shiftLeft
    rw [toInt32_eq, toInt32_eq]
    norm_num
    omega
  unfold hashStep
  rw [exactNum_of_bounds _ (by rw [hs]; omega)]
  simp only [Option.some_bind]
  rw [exactNum_of_bounds _ (by rw [hs]; omega)]
  simp only [Option.some_bind, Option.some.injEq]
  rw [hs, toInt32_eq]
  unfold wrap32
  omega

theorem hashLoop_eq (str : List Nat) (hstr : ∀ c ∈ str, c < 65536) :
    ∀ h : Int, (-2147483648 ≤ h ∧ h < 2147483648) →
      hashLoop str h = some (str.foldl (fun h c => wrap32 (h * 31 + (c : Int))) h) := by
  induction str with
  | nil => intro h _; rfl
  | cons c cs ih =>
    intro h hh
    have hc : c < 65536 := hstr c (List.mem_cons_self _ _)
    simp only [hashLoop, List.foldl_cons]
    rw [hashStep_eq h c hh hc]
    simp only [Option.some_bind]
    exact ih (fun d hd => hstr d (List.mem_cons_of_mem _ hd)) _ (wrap32_range _)

theorem foldl_wrap32_range (str : List Nat) :
    ∀ h : Int, (-2147483648 ≤ h ∧ h < 2147483648) →
      -2147483648 ≤ str.foldl (fun h c => wrap32 (h * 31 + (c : Int))) h ∧
      str.foldl (fun h c => wrap32 (h * 31 + (c : Int))) h < 2147483648 := by
  induction str with
  | nil => intro h hh; exact hh
  | cons c cs ih =>
    intro h _
    exact ih _ (wrap32_range _)

theorem hashLoop_eq_hashCode (str : List Nat) (hstr : ∀ c ∈ str, c < 65536) :
    hashCode str = some (hashSpec str) :=
  hashLoop_eq str hstr 0 (by norm_num)

/-- C7: on every sequence of UTF-16 code units, `hashCode` returns the left fold
from 0 of `h ↦ wrap32 (h*31 + c)`, each step of the code being that of the fold,
and the result lies in [-2^31, 2^31). -/
theorem hashCode_eq_fold (str : List Nat) (hstr : ∀ c ∈ str, c < 65536) :
    hashCode str = some (hashSpec str) ∧
    (∀ h : Int, ∀ c : Nat, -2 ^ 31 ≤ h → h < 2 ^ 31 → c < 65536 →
      hashStep h c = some (wrap32 (h * 31 + (c : Int)))) ∧
    -2 ^ 31 ≤ hashSpec str ∧ hashSpec str < 2 ^ 31 := by
  refine ⟨hashLoop_eq_hashCode str hstr, ?_, ?_⟩
  · intro h c h1 h2 hc
    exact hashStep_eq h c ⟨by norm_num at h1; exact h1, by norm_num at h2; exact h2⟩ hc
  · have := foldl_wrap32_range str 0 (by norm_num)
    unfold hashSpec
    norm_num
    exact this

theorem hashCode_eq_fold_witness :
    hashCode [80, 49] = some (hashSpec [80, 49]) ∧
    (∀ h : Int, ∀ c : Nat, -2 ^ 31 ≤ h → h < 2 ^ 31 → c < 65536 →
      hashStep h c = some (wrap32 (h * 31 + (c : Int)))) ∧
    -2 ^ 31 ≤ hashSpec [80, 49] ∧ hashSpec [80, 49] < 2 ^ 31 :=
  hashCode_eq_fold [80, 49] (by decide)


/-! ## Facts about the controller operations -/

theorem resetTimeline_rows_clear (s : State) :
    ∀ tr ∈ (resetTimeline s).rows,
      "row-running" ∉ tr.classList ∧ "row-done" ∉ tr.classList := by
  intro tr htr
  simp only [resetTimeline, List.mem_map] at htr
  obtain ⟨r, _, rfl⟩ := htr
  simp [clearRow, classRemove, List.mem_filter]

/-- C4: from every state, `resetTimeline` leaves `_playing = false`,
`_paused = false`, `_currentIndex = 0`, and no row carries `row-running` or
`row-done`; the rows themselves stay, with their pids. -/
theorem resetTimeline_idle (s : State) :
    (resetTimeline s).playing = false ∧ (resetTimeline s).paused = false ∧
    (resetTimeline s).currentIndex = 0 ∧
    (resetTimeline s).rows.map Row.pid = s.rows.map Row.pid ∧
    ∀ tr ∈ (resetTimeline s).rows,
      "row-running" ∉ tr.classList ∧ "row-done" ∉ tr.classList := by
  refine ⟨rfl, rfl, rfl, ?_, ?_⟩
  · simp [resetTimeline, clearRow, Function.comp_def]
  · exact resetTimeline_rows_clear s

/-- C5 (as stated, refuted): in the paused session `pausedAfterRender` the phase
is Paused (`_playing` and `_paused` both true), yet `pauseTimeline` changes the
status text. -/
theorem pauseTimeline_paused_changes_status :
    pausedAfterRender.playing = true ∧ pausedAfterRender.paused = true ∧
    pausedAfterRender.status = "Status: ready - use Play to animate" ∧
    (pauseTimeline pausedAfterRender).status = "Status: paused" ∧
    (pauseTimeline pausedAfterRender).status ≠ pausedAfterRender.status := by
  refine ⟨by rfl, by rfl, by rfl, by rfl, ?_⟩
  decide

/-- C5 (amended): with `_playing = false` (Idle, Finished) `pauseTimeline` leaves
the whole state unchanged; in phase Paused it leaves everything but the status
text unchanged and sets the status text to "Status: paused"; in phase Playing it
sets `_paused`, keeping `_playing`, and changes nothing but `_paused` and the
status text. -/
theorem pauseTimeline_frame (s : State) :
    (s.playing = false → pauseTimeline s = s) ∧
    (s.playing = true → s.paused = true →
      pauseTimeline s = { s with status := "Status: paused" }) ∧
    (s.playing = true → s.paused = false →
      pauseTimeline s = { s with paused := true, status := "Status: paused" }) := by
  refine ⟨?_, ?_, ?_⟩
  · intro h
    simp [pauseTimeline, h]
  · intro h h2
    cases s
    simp_all [pauseTimeline]
  · intro h _
    simp [pauseTimeline, h]

theorem pauseTimeline_frame_witness :
    pauseTimeline (initState defaultRows) = initState defaultRows ∧
    pauseTimeline pausedAfterRender =
      { pausedAfterRender with status := "Status: paused" } ∧
    pauseTimeline (playTimeline readyA) =
      { playTimeline readyA with paused := true, status := "Status: paused" } :=
  ⟨(pauseTimeline_frame (initState defaultRows)).1 rfl,
   (pauseTimeline_frame pausedAfterRender).2.1 (by rfl) (by rfl),
   (pauseTimeline_frame (playTimeline readyA)).2.2 (by rfl) (by rfl)⟩

/-! ## Facts about the row highlight sink -/

theorem mem_classAdd (l : List String) (c d : String) :
    d ∈ classAdd l c ↔ d ∈ l ∨ d = c := by
  unfold classAdd
  split
  · constructor
    · intro h; exact Or.inl h
    · rintro (h | h)
      · exact h
      · subst h; assumption
  · simp

theorem mem_classRemove (l : List String) (c d : String) :
    d ∈ classRemove l c ↔ d ∈ l ∧ d ≠ c := by
  simp [classRemove, List.mem_filter]

theorem highlightRow_pid (pid state : String) (tr : Row) :
    (highlightRow pid state tr).pid = tr.pid := by
  unfold highlightRow
  split
  · split
    · rfl
    · split <;> rfl
  · rfl

theorem highlightRow_running (pid : String) (tr : Row) (h : tr.pid = pid) :
    "row-running" ∈ (highlightRow pid "running" tr).classList ∧
    "row-done" ∉ (highlightRow pid "running" tr).classList := by
  simp [highlightRow, h, mem_classAdd, mem_classRemove]

theorem highlightRow_done (pid : String) (tr : Row) (h : tr.pid = pid) :
    "row-done" ∈ (highlightRow pid "done" tr).classList ∧
    "row-running" ∉ (highlightRow pid "done" tr).classList := by
  simp [highlightRow, h, mem_classAdd, mem_classRemove]

theorem highlightRow_other (pid state : String) (tr : Row) (h : tr.pid ≠ pid) :
    highlightRow pid state tr = tr := by
  simp [highlightRow, h]

theorem highlightRow_exclusive (pid state : String) (tr : Row)
    (h : ¬ ("row-running" ∈ tr.classList ∧ "row-done" ∈ tr.classList)) :
    ¬ ("row-running" ∈ (highlightRow pid state tr).classList ∧
       "row-done" ∈ (highlightRow pid state tr).classList) := by
  unfold highlightRow
  split
  · split
    · simp [mem_classAdd, mem_classRemove]
    · split
      · simp [mem_classAdd, mem_classRemove]
      · simp [mem_classRemove]
  · exact h

/-- C8: after `highlightProcess(pid, state)` with `state` one of "running" and
"done", the table has the same rows in the same order with the same pids; every
row whose pid equals `pid` (each of them, when several share it) carries
`row-running` and not `row-done` for "running", `row-done` and not `row-running`
for "done"; every other row is unchanged. `highlightProcess` and `resetTimeline`
preserve that no row carries both classes. -/
theorem highlightProcess_exclusive (rows : List Row) (pid state : String)
    (hstate : state = "running" ∨ state = "done") :
    (highlightProcess rows pid state).length = rows.length ∧
    (∀ i tr, rows.get? i = some tr →
      ∃ tr', (highlightProcess rows pid state).get? i = some tr' ∧
        tr'.pid = tr.pid ∧
        (tr.pid = pid → state = "running" →
          "row-running" ∈ tr'.classList ∧ "row-done" ∉ tr'.classList) ∧
        (tr.pid = pid → state = "done" →
          "row-done" ∈ tr'.classList ∧ "row-running" ∉ tr'.classList) ∧
        (tr.pid ≠ pid → tr' = tr)) ∧
    (ExclusiveClasses rows → ExclusiveClasses (highlightProcess rows pid state)) ∧
    (∀ s : State, ExclusiveClasses s.rows → ExclusiveClasses (resetTimeline s).rows) := by
  refine ⟨by simp [highlightProcess], ?_, ?_, ?_⟩
  · intro i tr hi
    refine ⟨highlightRow pid state tr, ?_, highlightRow_pid pid state tr, ?_, ?_, ?_⟩
    · simp [highlightProcess, List.get?_eq_getElem?] at hi ⊢
      exact ⟨tr, hi, rfl⟩
    · intro hp hs
      subst hs
      exact highlightRow_running pid tr hp
    · intro hp hs
      subst hs
      exact highlightRow_done pid tr hp
    · intro hp
      exact highlightRow_other pid state tr hp
  · intro hex tr htr
    simp only [highlightProcess, List.mem_map] at htr
    obtain ⟨r, hr, rfl⟩ := htr
    exact highlightRow_exclusive pid state r (hex r hr)
  · intro s _ tr htr
    have h := (resetTimeline_rows_clear s) tr htr
    exact fun hb => h.1 hb.1

theorem highlightProcess_exclusive_witness :
    (highlightProcess duplicateRows "P1" "running").length = duplicateRows.length ∧
    (∀ i tr, duplicateRows.get? i = some tr →
      ∃ tr', (highlightProcess duplicateRows "P1" "running").get? i = some tr' ∧
        tr'.pid = tr.pid ∧
        (tr.pid = "P1" → "running" = "running" →
          "row-running" ∈ tr'.classList ∧ "row-done" ∉ tr'.classList) ∧
        (tr.pid = "P1" → "running" = "done" →
          "row-done" ∈ tr'.classList ∧ "row-running" ∉ tr'.classList) ∧
        (tr.pid ≠ "P1" → tr' = tr)) ∧
    (ExclusiveClasses duplicateRows →
      ExclusiveClasses (highlightProcess duplicateRows "P1" "running")) ∧
    (∀ s : State, ExclusiveClasses s.rows → ExclusiveClasses (resetTimeline s).rows) :=
  highlightProcess_exclusive duplicateRows "P1" "running" (Or.inl rfl)

/-! ## Facts about the renderer -/

theorem charUnits_lt (c : Char) : ∀ u ∈ charUnits c, u < 65536 := by
  intro u hu
  have hv : c.toNat < 1114112 := by
    have := c.valid
    simp only [UInt32.isValidChar, Nat.isValidChar] at this
    have : c.val.toNat < 1114112 := by omega
    exact this
  unfold charUnits at hu
  split at hu
  · simp at hu; omega
  · simp at hu
    rcases hu with h | h <;> omega

theorem codeUnits_lt (s : String) : ∀ u ∈ codeUnits s, u < 65536 := by
  intro u hu
  simp only [codeUnits, List.mem_flatMap] at hu
  obtain ⟨c, _, hc⟩ := hu
  exact charUnits_lt c u hc

theorem getColor_isSome (colors : List (String × String)) (pid : String) :
    ∃ cc, getColor colors pid = some cc := by
  unfold getColor
  split
  · exact ⟨_, rfl⟩
  · rw [hashLoop_eq_hashCode (codeUnits pid) (codeUnits_lt pid)]
    exact ⟨_, rfl⟩

theorem bars_append (a b : List DrawOp) : bars (a ++ b) = bars a ++ bars b := by
  induction a with
  | nil => rfl
  | cons op rest ih => cases op <;> simp [bars, ih]

theorem labels_append (a b : List DrawOp) : labels (a ++ b) = labels a ++ labels b := by
  induction a with
  | nil => rfl
  | cons op rest ih => cases op <;> simp [labels, ih]

theorem drawSegments_spec (start total w : ℚ) (tl : List Segment) :
    ∀ (colors : List (String × String)) (acc : List DrawOp),
      ∃ ops, drawSegments start total w tl colors acc = some ops ∧
        bars ops = bars acc ++ tl.map (fun seg =>
          (((seg.start - start) / total) * w, ((seg.end_ - seg.start) / total) * w)) ∧
        labels ops = labels acc ++ tl := by
  induction tl with
  | nil => intro colors acc; exact ⟨acc, rfl, by simp, by simp⟩
  | cons seg rest ih =>
    intro colors acc
    obtain ⟨cc, hcc⟩ := getColor_isSome colors seg.pid
    obtain ⟨ops, h1, h2, h3⟩ := ih cc.1
      (acc ++ [DrawOp.fillRect (((seg.start - start) / total) * w) 30
                (((seg.end_ - seg.start) / total) * w) 50 cc.2,
               DrawOp.fillText seg ((((seg.start - start) / total) * w) + 4) 60 "#000"])
    refine ⟨ops, ?_, ?_, ?_⟩
    · simp only [drawSegments, hcc, Option.some_bind]
      exact h1
    · rw [h2, bars_append]
      simp [bars]
    · rw [h3, labels_append]
      simp [labels]

theorem drawGantt_nonempty (tl : List Segment) (cv : Canvas) (hne : tl ≠ []) :
    ∃ cv', drawGantt (some tl) cv = some cv' ∧
      cv'.width = ganttWidth tl ∧
      bars cv'.drawn = tl.map (fun seg =>
        (((seg.start - ganttStart tl) / ganttTotal tl) * ganttWidth tl,
         ((seg.end_ - seg.start) / ganttTotal tl) * ganttWidth tl)) ∧
      labels cv'.drawn = tl := by
  cases tl with
  | nil => exact absurd rfl hne
  | cons s0 ss =>
    obtain ⟨ops, h1, h2, h3⟩ := drawSegments_spec (ganttStart (s0 :: ss))
      (ganttTotal (s0 :: ss)) (ganttWidth (s0 :: ss)) (s0 :: ss) [] []
    refine ⟨⟨ganttWidth (s0 :: ss), 120, ops⟩, ?_, rfl, ?_, ?_⟩
    · simp only [drawGantt]
      rw [h1]
      rfl
    · simpa [bars] using h2
    · simpa [labels] using h3

theorem renderResults_nonempty (tl : List Segment) (s : State) (hne : tl ≠ []) :
    ∃ s', renderResults ⟨some tl⟩ s = some s' ∧
      s'.timeline = some tl ∧
      s'.canvas.width = ganttWidth tl ∧
      bars s'.canvas.drawn = tl.map (fun seg =>
        (((seg.start - ganttStart tl) / ganttTotal tl) * ganttWidth tl,
         ((seg.end_ - seg.start) / ganttTotal tl) * ganttWidth tl)) ∧
      labels s'.canvas.drawn = tl ∧
      s'.status = "Status: ready - use Play to animate" ∧
      s'.playing = s.playing ∧ s'.paused = s.paused ∧
      s'.currentIndex = s.currentIndex := by
  obtain ⟨cv', h1, h2, h3, h4⟩ := drawGantt_nonempty tl s.canvas hne
  refine ⟨{ s with canvas := cv', timeline := some tl,
                   status := "Status: ready - use Play to animate" },
    ?_, rfl, h2, h3, h4, rfl, rfl, rfl, rfl⟩
  simp only [renderResults, h1, Option.map_some']

theorem renderResults_empty (s : State) :
    renderResults ⟨none⟩ s = some
      { s with canvas := clearCanvas s.canvas, timeline := none,
               status := "Status: ready - use Play to animate" } ∧
    renderResults ⟨some []⟩ s = some
      { s with canvas := clearCanvas s.canvas, timeline := some [],
               status := "Status: ready - use Play to animate" } :=
  ⟨rfl, rfl⟩

theorem renderResults_total (data : Payload) (s : State) :
    ∃ s', renderResults data s = some s' := by
  rcases data with ⟨_ | tl⟩
  · exact ⟨_, (renderResults_empty s).1⟩
  · by_cases hne : tl = []
    · subst hne
      exact ⟨_, (renderResults_empty s).2⟩
    · obtain ⟨s', h, _⟩ := renderResults_nonempty tl s hne
      exact ⟨s', h⟩

/-- C6 (as stated, refuted): the payload whose timeline is the single segment
`{pid: "P1", start: 3, end: 3}` is not rejected. `renderResults` issues a
`fillRect` (at `x = 0`, of width 0) and draws the label for it, installs it as
`window._timeline` and reports "ready"; a following `playTimeline` starts playing
it. -/
theorem renderResults_accepts_zero_length :
    ∃ s', renderResults payloadC (initState defaultRows) = some s' ∧
      s'.timeline = some [⟨"P1", 3, 3⟩] ∧
      bars s'.canvas.drawn = [(0, 0)] ∧
      labels s'.canvas.drawn = [⟨"P1", 3, 3⟩] ∧
      s'.status = "Status: ready - use Play to animate" ∧
      (playTimeline s').playing = true ∧
      (playTimeline s').trace = [⟨0, 0, "P1", "running"⟩] := by
  obtain ⟨s', h1, h2, _, h4, h5, h6, h7, h8, h9⟩ :=
    renderResults_nonempty [⟨"P1", 3, 3⟩] (initState defaultRows) (by simp)
  refine ⟨s', h1, h2, ?_, h5, h6, ?_⟩
  · rw [h4]
    simp [ganttStart, ganttTotal, ganttEnd, ganttWidth, mathMin, mathMax]
  · have hs : s' =
        { initState defaultRows with canvas := s'.canvas, timeline := some [⟨"P1", 3, 3⟩],
                                     status := "Status: ready - use Play to animate" } := by
      simp only [renderResults, payloadC, Option.map_eq_some'] at h1
      obtain ⟨cv, _, hcv⟩ := h1
      rw [← hcv]
    rw [hs]
    exact ⟨rfl, rfl⟩

/-- C6 (amended): `renderResults` does not validate segments. For every payload
with a non-empty timeline, whatever the `start` and `end` of its segments, it
draws one bar and one label per segment, in order, the bar of a segment at
`x = (seg.start - start) / total * w` with width `(seg.end - seg.start) / total * w`
(so of width 0 or less when `end ≤ start`), installs the timeline as
`window._timeline`, reports "ready", and leaves `_playing`, `_paused` and
`_currentIndex` as they were. Only for an absent or empty timeline is the surface
cleared with nothing drawn. -/
theorem renderResults_no_validation (s : State) :
    (∀ tl : List Segment, tl ≠ [] →
      ∃ s', renderResults ⟨some tl⟩ s = some s' ∧
        s'.timeline = some tl ∧
        bars s'.canvas.drawn = tl.map (fun seg =>
          (((seg.start - ganttStart tl) / ganttTotal tl) * ganttWidth tl,
           ((seg.end_ - seg.start) / ganttTotal tl) * ganttWidth tl)) ∧
        labels s'.canvas.drawn = tl ∧
        s'.status = "Status: ready - use Play to animate" ∧
        s'.playing = s.playing ∧ s'.paused = s.paused ∧
        s'.currentIndex = s.currentIndex) ∧
    (∀ data : Payload, data.timeline = none ∨ data.timeline = some [] →
      ∃ s', renderResults data s = some s' ∧ s'.canvas.drawn = [] ∧
        s'.timeline = data.timeline ∧
        s'.playing = s.playing ∧ s'.paused = s.paused ∧
        s'.currentIndex = s.currentIndex) := by
  constructor
  · intro tl hne
    obtain ⟨s', h1, h2, _, h4, h5, h6, h7, h8, h9⟩ := renderResults_nonempty tl s hne
    exact ⟨s', h1, h2, h4, h5, h6, h7, h8, h9⟩
  · rintro ⟨tl⟩ (h | h)
    · simp only at h
      subst h
      exact ⟨_, (renderResults_empty s).1, rfl, rfl, rfl, rfl, rfl⟩
    · simp only at h
      subst h
      exact ⟨_, (renderResults_empty s).2, rfl, rfl, rfl, rfl, rfl⟩

theorem renderResults_no_validation_witness :
    (∃ s', renderResults ⟨some [⟨"P1", 3, 5⟩, ⟨"P2", 5, 5⟩]⟩ (initState defaultRows) = some s' ∧
      s'.timeline = some [⟨"P1", 3, 5⟩, ⟨"P2", 5, 5⟩] ∧
      labels s'.canvas.drawn = [⟨"P1", 3, 5⟩, ⟨"P2", 5, 5⟩]) ∧
    (∃ s', renderResults ⟨none⟩ (initState defaultRows) = some s' ∧ s'.canvas.drawn = []) := by
  constructor
  · obtain ⟨s', h1, h2, _, h4, _⟩ :=
      (renderResults_no_validation (initState defaultRows)).1
        [⟨"P1", 3, 5⟩, ⟨"P2", 5, 5⟩] (by simp)
    exact ⟨s', h1, h2, h4⟩
  · obtain ⟨s', h1, h2, _⟩ :=
      (renderResults_no_validation (initState defaultRows)).2 ⟨none⟩ (Or.inl rfl)
    exact ⟨s', h1, h2⟩

/-! ## Facts about uninterrupted playback -/

/-- C1 (evaluation at the failing input): in scenario A, `pauseTimeline` during
the first segment and `playTimeline` after that segment's wait has ended start a
second invocation, which replays segment 0 while the first invocation goes on to
segment 1. The events are `running(P1), done(P1), running(P1), running(P2),
done(P2), done(P1)`: `running` of segment 1 is emitted while a `running` of
segment 0 has not had its `done`, which follows only after the pair of
segment 1. -/
theorem resume_starts_second_loop :
    resumedA.trace =
      [⟨0, 0, "P1", "running"⟩, ⟨0, 0, "P1", "done"⟩, ⟨1, 0, "P1", "running"⟩,
       ⟨0, 1, "P2", "running"⟩, ⟨0, 1, "P2", "done"⟩, ⟨1, 0, "P1", "done"⟩] ∧
    ¬ PairsBeforeNext resumedA.trace := by
  have htr : resumedA.trace =
      [⟨0, 0, "P1", "running"⟩, ⟨0, 0, "P1", "done"⟩, ⟨1, 0, "P1", "running"⟩,
       ⟨0, 1, "P2", "running"⟩, ⟨0, 1, "P2", "done"⟩, ⟨1, 0, "P1", "done"⟩] := by rfl
  refine ⟨htr, ?_⟩
  rw [htr]
  intro h
  obtain ⟨r, h1, h2, _⟩ := h 3 ⟨0, 1, "P2", "running"⟩ rfl rfl 2 ⟨1, 0, "P1", "running"⟩
    (by decide) rfl rfl rfl
  omega

/-- C3 (evaluation at the failing input): in scenario A paused during its first
segment, `resetTimeline` is called while the invocation waits in its pause poll
for index 1. The state after it is Idle with the cursor at 0 and only the events
of segment 0 emitted; the next poll wake-up of the invocation then emits
`running(P2)`, sets `_currentIndex = 1` and marks the row of P2 as running, and
its next wake-up emits `done(P2)`. -/
theorem reset_while_paused_runs_next :
    resetWhilePausedA.playing = false ∧ resetWhilePausedA.paused = false ∧
    resetWhilePausedA.currentIndex = 0 ∧
    resetWhilePausedA.trace = [⟨0, 0, "P1", "running"⟩, ⟨0, 0, "P1", "done"⟩] ∧
    (wake 0 resetWhilePausedA).trace =
      resetWhilePausedA.trace ++ [⟨0, 1, "P2", "running"⟩] ∧
    (wake 0 resetWhilePausedA).currentIndex = 1 ∧
    (wake 0 resetWhilePausedA).rows =
      [⟨"P1", []⟩, ⟨"P2", ["row-running"]⟩, ⟨"P3", []⟩] ∧
    (wake 0 (wake 0 resetWhilePausedA)).trace =
      resetWhilePausedA.trace ++ [⟨0, 1, "P2", "running"⟩, ⟨0, 1, "P2", "done"⟩] ∧
    ¬ QuietAfterReset (exec readyA [Step.play, Step.pause, Step.wake 0]) := by
  refine ⟨by rfl, by rfl, by rfl, by rfl, by rfl, by rfl, by rfl, by rfl, ?_⟩
  intro h
  exact h [0] ⟨0, 1, "P2", "running"⟩ (by decide) rfl

/-! ## What holds of the events in every session -/

theorem get?_append_single (tr : List Event) (e x : Event) (k : Nat) :
    (tr ++ [e]).get? k = some x ↔ tr.get? k = some x ∨ (k = tr.length ∧ x = e) := by
  rcases Nat.lt_trichotomy k tr.length with h | h | h
  · rw [List.get?_eq_getElem?, List.get?_eq_getElem?, List.getElem?_append_left h]
    constructor
    · intro hx; exact Or.inl hx
    · rintro (hx | ⟨hk, _⟩)
      · exact hx
      · omega
  · subst h
    simp [eq_comm]
  · have hnone : tr.get? k = none := by
      simp only [List.get?_eq_getElem?, List.getElem?_eq_none_iff]; omega
    have hnone2 : (tr ++ [e]).get? k = none := by
      simp only [List.get?_eq_getElem?, List.getElem?_eq_none_iff, List.length_append,
        List.length_singleton]; omega
    rw [hnone, hnone2]
    constructor
    · intro hx; cases hx
    · rintro (hx | ⟨hk, _⟩)
      · cases hx
      · omega

theorem get?_lt_length (tr : List Event) (k : Nat) (x : Event) (h : tr.get? k = some x) :
    k < tr.length := by
  by_contra hk
  have hnone : tr.get? k = none := by
    simp only [List.get?_eq_getElem?, List.getElem?_eq_none_iff]; omega
  rw [hnone] at h
  cases h

theorem hasPair_append (tr : List Event) (e : Event) (i : Nat) (h : HasPair tr i) :
    HasPair (tr ++ [e]) i := by
  obtain ⟨q, r, l, pid, hqr, hq, hr⟩ := h
  exact ⟨q, r, l, pid, hqr, (get?_append_single _ _ _ _).mpr (Or.inl hq),
    (get?_append_single _ _ _ _).mpr (Or.inl hr)⟩

theorem hasPair_append_done (tr : List Event) (l i : Nat) (pid : String)
    (h : ∃ q, tr.get? q = some ⟨l, i, pid, "running"⟩) :
    HasPair (tr ++ [⟨l, i, pid, "done"⟩]) i := by
  obtain ⟨q, hq⟩ := h
  exact ⟨q, tr.length, l, pid, get?_lt_length tr q _ hq,
    (get?_append_single _ _ _ _).mpr (Or.inl hq),
    (get?_append_single _ _ _ _).mpr (Or.inr ⟨rfl, rfl⟩)⟩

theorem doneAfter_append_running (tr : List Event) (e : Event)
    (h : DoneAfterRunning tr) (he : e.state = "running") :
    DoneAfterRunning (tr ++ [e]) := by
  intro k x hk hx
  rcases (get?_append_single tr e x k).mp hk with hk | ⟨_, rfl⟩
  · obtain ⟨q, hq, hq2⟩ := h k x hk hx
    exact ⟨q, hq, (get?_append_single _ _ _ _).mpr (Or.inl hq2)⟩
  · rw [he] at hx
    exact absurd hx (by decide)

theorem doneAfter_append_done (tr : List Event) (l i : Nat) (pid : String)
    (h : DoneAfterRunning tr) (hrun : ∃ q, tr.get? q = some ⟨l, i, pid, "running"⟩) :
    DoneAfterRunning (tr ++ [⟨l, i, pid, "done"⟩]) := by
  intro k x hk hx
  rcases (get?_append_single tr _ x k).mp hk with hk | ⟨hlen, rfl⟩
  · obtain ⟨q, hq, hq2⟩ := h k x hk hx
    exact ⟨q, hq, (get?_append_single _ _ _ _).mpr (Or.inl hq2)⟩
  · obtain ⟨q, hq⟩ := hrun
    exact ⟨q, by rw [hlen]; exact get?_lt_length tr q _ hq,
      (get?_append_single _ _ _ _).mpr (Or.inl hq)⟩

theorem pred_append_done (tr : List Event) (e : Event)
    (h : PredecessorPaired tr) (he : e.state = "done") :
    PredecessorPaired (tr ++ [e]) := by
  intro k x hk hx i hi
  rcases (get?_append_single tr e x k).mp hk with hk | ⟨_, rfl⟩
  · obtain ⟨q, r, l, pid, h1, h2, h3, h4⟩ := h k x hk hx i hi
    exact ⟨q, r, l, pid, h1, h2, (get?_append_single _ _ _ _).mpr (Or.inl h3),
      (get?_append_single _ _ _ _).mpr (Or.inl h4)⟩
  · rw [he] at hx
    exact absurd hx (by decide)

theorem pred_append_running (tr : List Event) (e : Event)
    (h : PredecessorPaired tr) (hp : ∀ i, e.index = i + 1 → HasPair tr i) :
    PredecessorPaired (tr ++ [e]) := by
  intro k x hk hx i hi
  rcases (get?_append_single tr e x k).mp hk with hk | ⟨hlen, rfl⟩
  · obtain ⟨q, r, l, pid, h1, h2, h3, h4⟩ := h k x hk hx i hi
    exact ⟨q, r, l, pid, h1, h2, (get?_append_single _ _ _ _).mpr (Or.inl h3),
      (get?_append_single _ _ _ _).mpr (Or.inl h4)⟩
  · obtain ⟨q, r, l, pid, h1, h3, h4⟩ := hp i hi
    exact ⟨q, r, l, pid, h1, by rw [hlen]; exact get?_lt_length tr r _ h4,
      (get?_append_single _ _ _ _).mpr (Or.inl h3),
      (get?_append_single _ _ _ _).mpr (Or.inl h4)⟩
theorem orderInv_of_eq (s t : State) (h : OrderInv s) (h1 : t.trace = s.trace)
    (h2 : t.loops = s.loops) (h3 : ∀ i, t.currentIndex = i + 1 → HasPair s.trace i) :
    OrderInv t where
  doneAfter := by rw [h1]; exact h.doneAfter
  pred := by rw [h1]; exact h.pred
  cursor := by rw [h1]; exact h3
  poll := by rw [h1, h2]; exact h.poll
  waitPred := by rw [h1, h2]; exact h.waitPred
  waitRun := by rw [h1, h2]; exact h.waitRun

theorem orderInv_loopExit (s : State) (h : OrderInv s) : OrderInv (loopExit s) :=
  orderInv_of_eq s _ h rfl rfl (by intro i hi; cases hi)

theorem orderInv_suspend_poll (s : State) (id i : Nat) (h : OrderInv s)
    (hp : ∀ j, i = j + 1 → HasPair s.trace j) : OrderInv (suspend s id (Pc.poll i)) where
  doneAfter := h.doneAfter
  pred := h.pred
  cursor := h.cursor
  poll := by
    intro l hl j hpc
    simp only [suspend, List.mem_append, List.mem_singleton] at hl
    rcases hl with hl | rfl
    · exact h.poll l hl j hpc
    · simp only [Pc.poll.injEq] at hpc
      exact hp j hpc
  waitPred := by
    intro l hl j seg d hpc
    simp only [suspend, List.mem_append, List.mem_singleton] at hl
    rcases hl with hl | rfl
    · exact h.waitPred l hl j seg d hpc
    · cases hpc
  waitRun := by
    intro l hl j seg d hpc
    simp only [suspend, List.mem_append, List.mem_singleton] at hl
    rcases hl with hl | rfl
    · exact h.waitRun l hl j seg d hpc
    · cases hpc

theorem orderInv_loopBody (id i : Nat) (s : State) (h : OrderInv s)
    (hp : ∀ j, i = j + 1 → HasPair s.trace j) : OrderInv (loopBody id i s) := by
  unfold loopBody
  cases ht : s.timeline with
  | none => exact orderInv_of_eq s _ h rfl rfl hp
  | some tl =>
    simp only [ht]
    cases hg : tl.get? i with
    | none => exact orderInv_of_eq s _ h rfl rfl hp
    | some seg =>
      simp only
      exact
        { doneAfter := doneAfter_append_running _ _ h.doneAfter rfl
          pred := pred_append_running _ _ h.pred hp
          cursor := fun j hj => hasPair_append _ _ _ (hp j hj)
          poll := by
            intro l hl j hpc
            simp only [suspend, emit, List.mem_append, List.mem_singleton] at hl
            rcases hl with hl | rfl
            · exact hasPair_append _ _ _ (h.poll l hl j hpc)
            · cases hpc
          waitPred := by
            intro l hl j sg d hpc
            simp only [suspend, emit, List.mem_append, List.mem_singleton] at hl
            rcases hl with hl | rfl
            · exact hasPair_append _ _ _ (h.waitPred l hl j sg d hpc)
            · simp only [Pc.wait.injEq] at hpc
              exact hasPair_append _ _ _ (hp j hpc.1)
          waitRun := by
            intro l hl j sg d hpc
            simp only [suspend, emit, List.mem_append, List.mem_singleton] at hl
            rcases hl with hl | rfl
            · obtain ⟨q, hq⟩ := h.waitRun l hl j sg d hpc
              exact ⟨q, (get?_append_single _ _ _ _).mpr (Or.inl hq)⟩
            · simp only [Pc.wait.injEq] at hpc
              obtain ⟨h1, h2, _⟩ := hpc
              subst h1 h2
              exact ⟨s.trace.length, (get?_append_single _ _ _ _).mpr (Or.inr ⟨rfl, rfl⟩)⟩ }

theorem orderInv_loopHead (id i : Nat) (s : State) (h : OrderInv s)
    (hp : ∀ j, i = j + 1 → HasPair s.trace j) : OrderInv (loopHead id i s) := by
  unfold loopHead
  cases ht : s.timeline with
  | none => simpa using h
  | some tl =>
    simp only
    split
    · split
      · exact orderInv_loopExit s h
      · split
        · exact orderInv_suspend_poll s id i h hp
        · exact orderInv_loopBody id i s h hp
    · exact orderInv_loopExit s h

theorem orderInv_emit_done (s : State) (id i : Nat) (pid : String) (h : OrderInv s)
    (hrun : ∃ q, s.trace.get? q = some ⟨id, i, pid, "running"⟩) :
    OrderInv (emit s id i pid "done") where
  doneAfter := doneAfter_append_done _ _ _ _ h.doneAfter hrun
  pred := pred_append_done _ _ h.pred rfl
  cursor := fun j hj => hasPair_append _ _ _ (h.cursor j hj)
  poll := fun l hl j hpc => hasPair_append _ _ _ (h.poll l hl j hpc)
  waitPred := fun l hl j sg d hpc => hasPair_append _ _ _ (h.waitPred l hl j sg d hpc)
  waitRun := by
    intro l hl j sg d hpc
    obtain ⟨q, hq⟩ := h.waitRun l hl j sg d hpc
    exact ⟨q, (get?_append_single _ _ _ _).mpr (Or.inl hq)⟩

theorem orderInv_wake (id : Nat) (s : State) (h : OrderInv s) : OrderInv (wake id s) := by
  unfold wake
  cases hf : s.loops.find? (fun l => l.id = id) with
  | none => simpa using h
  | some l =>
    simp only
    have hmem : l ∈ s.loops := List.mem_of_find?_eq_some hf
    have h' : OrderInv { s with loops := s.loops.filter (fun k => k.id ≠ id) } :=
      { doneAfter := h.doneAfter
        pred := h.pred
        cursor := h.cursor
        poll := fun k hk => h.poll k (List.mem_of_mem_filter hk)
        waitPred := fun k hk => h.waitPred k (List.mem_of_mem_filter hk)
        waitRun := fun k hk => h.waitRun k (List.mem_of_mem_filter hk) }
    unfold resume
    cases hpc : l.pc with
    | poll i =>
      simp only
      have hp : ∀ j, i = j + 1 → HasPair s.trace j := by
        intro j hj
        subst hj
        exact h.poll l hmem j hpc
      split
      · exact orderInv_suspend_poll _ l.id i h' hp
      · exact orderInv_loopBody l.id i _ h' hp
    | wait i seg d =>
      simp only
      have hrun := h.waitRun l hmem i seg d hpc
      refine orderInv_loopHead l.id (i + 1) _ (orderInv_emit_done _ l.id i seg.pid h' hrun) ?_
      intro j hj
      have hji : j = i := by omega
      subst hji
      exact hasPair_append_done _ _ _ _ hrun

theorem orderInv_playTimeline (s : State) (h : OrderInv s) : OrderInv (playTimeline s) := by
  unfold playTimeline
  split
  · exact orderInv_of_eq s _ h rfl rfl h.cursor
  · split
    · exact h
    · refine orderInv_loopHead _ _ _ (orderInv_of_eq s _ h rfl rfl h.cursor) ?_
      intro j hj
      exact h.cursor j hj

theorem orderInv_pauseTimeline (s : State) (h : OrderInv s) : OrderInv (pauseTimeline s) := by
  unfold pauseTimeline
  split
  · exact h
  · exact orderInv_of_eq s _ h rfl rfl h.cursor

theorem orderInv_resetTimeline (s : State) (h : OrderInv s) : OrderInv (resetTimeline s) :=
  orderInv_of_eq s _ h rfl rfl (by intro i hi; cases hi)

theorem orderInv_render (data : Payload) (s : State) (h : OrderInv s) :
    OrderInv ((renderResults data s).getD s) := by
  unfold renderResults
  cases drawGantt data.timeline s.canvas with
  | none => simpa using h
  | some cv => exact orderInv_of_eq s _ h rfl rfl h.cursor

theorem orderInv_step (s : State) (st : Step) (h : OrderInv s) : OrderInv (step s st) := by
  cases st with
  | render data => exact orderInv_render data s h
  | play => exact orderInv_playTimeline s h
  | pause => exact orderInv_pauseTimeline s h
  | reset => exact orderInv_resetTimeline s h
  | wake id => exact orderInv_wake id s h

theorem orderInv_exec (steps : List Step) : ∀ s : State, OrderInv s → OrderInv (exec s steps) := by
  induction steps with
  | nil => intro s h; exact h
  | cons st rest ih => intro s h; exact ih (step s st) (orderInv_step s st h)

theorem orderInv_init (rows : List Row) : OrderInv (initState rows) where
  doneAfter := by intro k e hk; cases hk
  pred := by intro k e hk; cases hk
  cursor := by intro i hi; cases hi
  poll := by intro l hl; cases hl
  waitPred := by intro l hl; cases hl
  waitRun := by intro l hl; cases hl

/-- In every session, whatever its steps: each `done` comes after the `running`
of the same invocation for the same loop index, and before each `running` of loop
index `i + 1` some invocation has emitted `running` and then `done` for loop
index `i`. The ordering `PairsBeforeNext`, that no `running` of index `i` is still
without its `done` at that point, is not among what holds. -/
theorem events_order_every_session (rows : List Row) (steps : List Step) :
    DoneAfterRunning (exec (initState rows) steps).trace ∧
    PredecessorPaired (exec (initState rows) steps).trace :=
  ⟨(orderInv_exec steps _ (orderInv_init rows)).doneAfter,
   (orderInv_exec steps _ (orderInv_init rows)).pred⟩

/-! ## What `resetTimeline` does cancel -/

theorem wake_after_reset (id : Nat) (t : State) (base : List Event)
    (hp : t.playing = false) (hpoll : ∀ l ∈ t.loops, ∀ i, l.pc ≠ Pc.poll i)
    (htr : ∃ extra, t.trace = base ++ extra ∧ ∀ e ∈ extra, e.state = "done") :
    (wake id t).playing = false ∧ (∀ l ∈ (wake id t).loops, ∀ i, l.pc ≠ Pc.poll i) ∧
    ∃ extra, (wake id t).trace = base ++ extra ∧ ∀ e ∈ extra, e.state = "done" := by
  unfold wake
  cases hf : t.loops.find? (fun l => l.id = id) with
  | none => exact ⟨hp, hpoll, htr⟩
  | some l =>
    simp only
    have hmem : l ∈ t.loops := List.mem_of_find?_eq_some hf
    have hpoll' : ∀ k ∈ t.loops.filter (fun k => k.id ≠ id), ∀ i, k.pc ≠ Pc.poll i :=
      fun k hk => hpoll k (List.mem_of_mem_filter hk)
    obtain ⟨extra, hex, hdone⟩ := htr
    unfold resume
    cases hpc : l.pc with
    | poll i => exact absurd hpc (hpoll l hmem i)
    | wait i seg d =>
      simp only
      have hextra : ∀ e ∈ extra ++ [⟨l.id, i, seg.pid, "done"⟩], e.state = "done" := by
        intro e he
        rcases List.mem_append.mp he with he | he
        · exact hdone e he
        · rw [List.mem_singleton.mp he]
      have htrace : t.trace ++ [⟨l.id, i, seg.pid, "done"⟩]
          = base ++ (extra ++ [⟨l.id, i, seg.pid, "done"⟩]) := by
        rw [hex, List.append_assoc]
      unfold loopHead
      cases ht : t.timeline with
      | none =>
        simp only [emit, ht]
        exact ⟨hp, hpoll', _, htrace, hextra⟩
      | some tl =>
        simp only [emit, ht, hp, Bool.not_false, if_true, ite_self, loopExit]
        exact ⟨trivial, hpoll', _, htrace, hextra⟩

theorem exec_wakes_after_reset (ids : List Nat) (base : List Event) :
    ∀ t : State, t.playing = false → (∀ l ∈ t.loops, ∀ i, l.pc ≠ Pc.poll i) →
      (∃ extra, t.trace = base ++ extra ∧ ∀ e ∈ extra, e.state = "done") →
      ∃ extra, (exec t (ids.map Step.wake)).trace = base ++ extra ∧
        ∀ e ∈ extra, e.state = "done" := by
  induction ids with
  | nil => intro t _ _ h; exact h
  | cons id rest ih =>
    intro t hp hpoll htr
    obtain ⟨h1, h2, h3⟩ := wake_after_reset id t base hp hpoll htr
    exact ih (wake id t) h1 h2 h3

/-- When no invocation waits in its pause poll, `resetTimeline` is followed, under
timer wake-ups alone, by `done` events only: a step already in its wait completes
and no further segment starts. -/
theorem quiet_after_reset_of_no_poll (s : State)
    (hpoll : ∀ l ∈ s.loops, ∀ i, l.pc ≠ Pc.poll i) : QuietAfterReset s := by
  intro ids e he
  obtain ⟨extra, hex, hdone⟩ := exec_wakes_after_reset ids s.trace (resetTimeline s) rfl hpoll
    ⟨[], by simp [resetTimeline], by intro e he; cases he⟩
  rw [hex, List.drop_left] at he
  rw [hdone e he]
  decide

end Scheduler
